import Mathlib

/-!
Verification of the data-loading-and-derivation pipeline of the hypercube
visualization frontend (`useHypercubeData` and its helpers).

Modelling conventions:
* JS numbers are modelled as rationals (`ℚ`); `Math.sqrt` (irrational on ℚ)
  is an environment-supplied function parameter.
* JS strings are modelled as Lean `String`s, operated on as `List Char`
  where character-level work is needed.
* A JS `Map` is modelled as an insertion-ordered association list where a
  later insertion for the same key shadows an earlier one.
* Absent / `undefined` / malformed values are modelled by `Option`.
* `parseInt(s, 16)` is modelled faithfully including two's-complement
  `ToInt32` coercion used by the `>>` and `&` bitwise operators.
-/

namespace Hypercube

/-- A 3-component vector of finite JS numbers. -/
structure Vec3 where
  x : ℚ
  y : ℚ
  z : ℚ
deriving DecidableEq

/-- Models `const DISPLAY_GLOBAL_SCALE = 0.95`. -/
def DISPLAY_GLOBAL_SCALE : ℚ := 95 / 100

/-- Environment configuration consumed by the coordinate stylizer:
`VITE_DISPLAY_SHAPE_MODE`, the resolved `VITE_DISPLAY_SPHERIFY_AMOUNT`
(the `Number.isFinite` check with default `0.82` is resolved into the
stored value), and the host platform's `Math.sqrt`. -/
structure DisplayEnv where
  shapeModeVar : Option String
  spherifyAmount : ℚ
  sqrt : ℚ → ℚ

/-- Models `.toLowerCase()`, modelled characterwise. -/
def jsToLowerCase (s : String) : String :=
  String.mk (s.toList.map Char.toLower)

/-- Models `String(import.meta.env.VITE_DISPLAY_SHAPE_MODE ?? 'freeform').toLowerCase()`. -/
def DISPLAY_SHAPE_MODE (env : DisplayEnv) : String :=
  jsToLowerCase (env.shapeModeVar.getD "freeform")

/-- Models `cubeToSphere(position)`: the standard cube→sphere remap
(`position.x ?? 0` is the identity on our total `Vec3`). -/
def cubeToSphere (sqrt : ℚ → ℚ) (position : Vec3) : Vec3 :=
  let x := position.x
  let y := position.y
  let z := position.z
  let xx := x * x
  let yy := y * y
  let zz := z * z
  { x := x * sqrt (max 0 (1 - yy / 2 - zz / 2 + yy * zz / 3))
    y := y * sqrt (max 0 (1 - zz / 2 - xx / 2 + zz * xx / 3))
    z := z * sqrt (max 0 (1 - xx / 2 - yy / 2 + xx * yy / 3)) }

/-- Models `stylizeDisplayPosition(position)`. -/
def stylizeDisplayPosition (env : DisplayEnv) (position : Vec3) : Vec3 :=
  let raw := position
  if DISPLAY_SHAPE_MODE env ≠ "spherify" then
    { x := raw.x * DISPLAY_GLOBAL_SCALE
      y := raw.y * DISPLAY_GLOBAL_SCALE
      z := raw.z * DISPLAY_GLOBAL_SCALE }
  else
    let base : Vec3 :=
      { x := max (-1) (min 1 raw.x)
        y := max (-1) (min 1 raw.y)
        z := max (-1) (min 1 raw.z) }
    let sphere := cubeToSphere env.sqrt base
    let t := max 0 (min 1 env.spherifyAmount)
    { x := (base.x + (sphere.x - base.x) * t) * DISPLAY_GLOBAL_SCALE
      y := (base.y + (sphere.y - base.y) * t) * DISPLAY_GLOBAL_SCALE
      z := (base.z + (sphere.z - base.z) * t) * DISPLAY_GLOBAL_SCALE }

/-! ### JS `parseInt(·, 16)` and `hexToRgb01` -/

/-- ECMAScript whitespace skipped by `parseInt` (ASCII subset). -/
def isJsWhitespace (c : Char) : Bool :=
  c = ' ' ∨ c = '\t' ∨ c = '\n' ∨ c = '\r' ∨ c.toNat = 12 ∨ c.toNat = 11

/-- Value of a hexadecimal digit character, if it is one. -/
def hexDigitVal (c : Char) : Option Nat :=
  if '0' ≤ c ∧ c ≤ '9' then some (c.toNat - '0'.toNat)
  else if 'a' ≤ c ∧ c ≤ 'f' then some (c.toNat - 'a'.toNat + 10)
  else if 'A' ≤ c ∧ c ≤ 'F' then some (c.toNat - 'A'.toNat + 10)
  else none

/-- Accumulate the longest prefix of hex digits; `none` when no digit was
consumed (`parseInt` returns `NaN`). -/
def hexRun : List Char → Option Nat → Option Nat
  | [], acc => acc
  | c :: rest, acc =>
    match hexDigitVal c with
    | some d => hexRun rest (some ((acc.getD 0) * 16 + d))
    | none => acc

/-- Models `Number.parseInt(s, 16)`: skip whitespace, optional sign, optional
`0x`/`0X`, then the longest run of hex digits; `none` models `NaN`.
(Exact for inputs below 2^53, which covers every color string.) -/
def jsParseIntHex (s : String) : Option Int :=
  let cs := s.toList.dropWhile isJsWhitespace
  let signed : Int × List Char :=
    match cs with
    | '-' :: rest => (-1, rest)
    | '+' :: rest => (1, rest)
    | _ => (1, cs)
  let body : List Char :=
    match signed.2 with
    | '0' :: 'x' :: rest => rest
    | '0' :: 'X' :: rest => rest
    | _ => signed.2
  (hexRun body none).map (fun n => signed.1 * (n : Int))

/-- JS `ToInt32`: wrap an integer into `[-2^31, 2^31)` two's-complement. -/
def toInt32 (n : Int) : Int :=
  let m := Int.emod n 4294967296
  if m < 2147483648 then m else m - 4294967296

/-- Models `(n >> 16) & 255` on a JS number already coerced by `ToInt32`:
arithmetic right shift is flooring division, masking takes the low bits. -/
def shiftMask (n : Int) (k : Nat) : Int :=
  Int.emod (Int.fdiv (toInt32 n) ((2 : Int) ^ k)) 256

/-- Models `String.prototype.replace` with a plain-string pattern removes only the
first occurrence (`String(hex || '').replace('#', '')`). -/
def removeFirst (target : Char) : List Char → List Char
  | [] => []
  | c :: rest => if c = target then rest else c :: removeFirst target rest

/-- The `normalized`/`full` steps of `hexToRgb01`: strip one `#`, expand a
3-digit shorthand by doubling each character. -/
def hexFull (hex : String) : List Char :=
  let normalized := removeFirst '#' hex.toList
  if normalized.length = 3 then normalized.flatMap (fun c => [c, c]) else normalized

/-- Models `hexToRgb01(hex)`: parse as hex; `NaN` yields the `[0.07, 0.07, 0.07]`
fallback, otherwise extract the three 8-bit channels and divide by 255. -/
def hexToRgb01 (hex : String) : List ℚ :=
  match jsParseIntHex (String.mk (hexFull hex)) with
  | none => [7/100, 7/100, 7/100]
  | some parsed =>
    [ (shiftMask parsed 16 : ℚ) / 255,
      (shiftMask parsed 8 : ℚ) / 255,
      (Int.emod (toInt32 parsed) 256 : ℚ) / 255 ]

/-! ### Raw data model -/

/-- The only manifest field consumed by the deriver:
`manifest?.display_coordinates?.default_field`. -/
structure Manifest where
  default_field : Option String
deriving DecidableEq

/-- One raw node record; each coordinate field is `none` when absent or not
a well-formed finite 3-tuple (`isVec3` failure). -/
structure RawNode where
  id : Int
  species : String
  position_cloud : Option Vec3
  position : Option Vec3
  position_tsne : Option Vec3
  position_raw : Option Vec3
deriving DecidableEq

/-- One raw edge record (`source`/`target` node ids; opaque extra fields are
ignored by the pipeline). -/
structure RawEdge where
  source : Int
  target : Int
deriving DecidableEq

/-- One species record; `colorHex` models `entry.color?.hex`, `none` when
the `color` object or its `hex` field is absent. -/
structure SpeciesEntry where
  species : String
  count : Int
  colorHex : Option String
deriving DecidableEq

/-- The raw package handed to `processPackage`. -/
structure Package where
  manifest : Manifest
  nodes : List RawNode
  edges : List RawEdge
  species : List SpeciesEntry
deriving DecidableEq

/-- A sorted node with its attached derived `displayPosition`. -/
structure ProcessedNode extends RawNode where
  displayPosition : Vec3
deriving DecidableEq

/-- Models `{...edge, sourceIndex, targetIndex}`. -/
structure NormalizedEdge extends RawEdge where
  sourceIndex : Nat
  targetIndex : Nat
deriving DecidableEq

/-- A legend entry: `{...entry, label}`. -/
structure LegendEntry extends SpeciesEntry where
  label : String
deriving DecidableEq

/-! ### JS `Map` model -/

/-- Models `map.set(k, v)`: append; later entries shadow earlier ones. -/
def jsMapSet {α β : Type} (m : List (α × β)) (k : α) (v : β) : List (α × β) :=
  m ++ [(k, v)]

/-- Models `map.get(k)`: the most recently inserted binding for `k`. -/
def jsMapGet {α β : Type} [DecidableEq α] (m : List (α × β)) (k : α) : Option β :=
  (m.reverse.find? (fun p => p.1 = k)).map (fun p => p.2)

/-! ### Field selection and per-node coordinates -/

/-- Models `node[field]` for the four known coordinate attributes. -/
def nodeField (node : RawNode) (field : String) : Option Vec3 :=
  if field = "position_cloud" then node.position_cloud
  else if field = "position" then node.position
  else if field = "position_tsne" then node.position_tsne
  else if field = "position_raw" then node.position_raw
  else none

/-- Models `isVec3(value)`: the value is present (finiteness is encoded in `Vec3`). -/
def isVec3 (value : Option Vec3) : Bool :=
  value.isSome

/-- Models `chooseDisplayField(manifest, nodes)`: candidate fields (the manifest's
declared default first, dropped when falsy by `.filter(Boolean)`), tested
against the first node only; fall back to `"position"`. -/
def chooseDisplayField (manifest : Manifest) (nodes : List RawNode) : String :=
  let sample : Option RawNode := nodes.head?
  let declared : List String :=
    match manifest.default_field with
    | some f => if f = "" then [] else [f]
    | none => []
  let candidates : List String :=
    declared ++ ["position_cloud", "position", "position_tsne", "position_raw"]
  match candidates.find? (fun f => isVec3 (sample.bind (fun n => nodeField n f))) with
  | some f => f
  | none => "position"

/-- Models `getDisplayPosition(node, field)`: per-node fallback through the
candidate order, defaulting to the origin. -/
def getDisplayPosition (node : RawNode) (field : String) : Vec3 :=
  let candidates : List (Option Vec3) :=
    [nodeField node field, node.position_cloud, node.position,
     node.position_tsne, node.position_raw]
  match candidates.find? isVec3 with
  | some (some v) => v
  | _ => { x := 0, y := 0, z := 0 }

/-- Models `prettifySpeciesName`: underscores become spaces. -/
def underscoresToSpaces (cs : List Char) : List Char :=
  cs.map (fun c => if c = '_' then ' ' else c)

/-- A regex `\w` character: `[A-Za-z0-9_]`. -/
def isWordChar (c : Char) : Bool :=
  ('a' ≤ c ∧ c ≤ 'z') ∨ ('A' ≤ c ∧ c ≤ 'Z') ∨ ('0' ≤ c ∧ c ≤ '9') ∨ c = '_'

/-- Models `/\b\w/g` uppercase: capitalize each word character not preceded by a
word character; the flag carries whether the previous char was a word char. -/
def capitalizeWordStarts : List Char → Bool → List Char
  | [], _ => []
  | c :: rest, prevWord =>
    (if isWordChar c ∧ prevWord = false then c.toUpper else c)
      :: capitalizeWordStarts rest (isWordChar c)

/-- Models `prettifySpeciesName(value)`. -/
def prettifySpeciesName (value : String) : String :=
  String.mk (capitalizeWordStarts (underscoresToSpaces value.toList) false)

/-! ### `processPackage` -/

/-- Models `new Map(species.map((entry) => [entry.species, entry]))`. -/
def speciesByKey (species : List SpeciesEntry) : List (String × SpeciesEntry) :=
  species.foldl (fun m entry => jsMapSet m entry.species entry) []

/-- Models `[...nodes].sort((a, b) => a.id - b.id)` followed by attaching
`displayPosition`. A JS engine's `sort` with a consistent comparator is
stable (ES2019), and the stable ascending permutation of a list is unique,
so any stable sort models it exactly; we use the structurally recursive
`insertionSort` (stable by construction). -/
def sortedNodesOf (env : DisplayEnv) (displayField : String) (nodes : List RawNode) :
    List ProcessedNode :=
  (nodes.insertionSort (fun a b => a.id ≤ b.id)).map
    (fun node =>
      { toRawNode := node
        displayPosition := stylizeDisplayPosition env (getDisplayPosition node displayField) })

/-- Models `sortedNodes.forEach((node, index) => indexById.set(node.id, index))`. -/
def buildIndexById (sortedNodes : List ProcessedNode) : List (Int × Nat) :=
  sortedNodes.enum.foldl (fun m p => jsMapSet m p.2.id p.1) []

/-- The flat `positions` buffer: 3 components per node in sorted order. -/
def buildPositions (sortedNodes : List ProcessedNode) : List ℚ :=
  sortedNodes.flatMap
    (fun n => [n.displayPosition.x, n.displayPosition.y, n.displayPosition.z])

/-- Models `speciesByKey.get(node.species)?.color?.hex ?? '#111111'`. -/
def nodeColorHex (byKey : List (String × SpeciesEntry)) (node : ProcessedNode) : String :=
  ((jsMapGet byKey node.species).bind (fun e => e.colorHex)).getD "#111111"

/-- The flat `colors` buffer: 3 components per node in sorted order. -/
def buildColors (byKey : List (String × SpeciesEntry)) (sortedNodes : List ProcessedNode) :
    List ℚ :=
  sortedNodes.flatMap (fun n => hexToRgb01 (nodeColorHex byKey n))

/-- State threaded through the `for (const edge of edges)` loop. `base` is
the written prefix of the preallocated `baseEdgePositions` buffer. -/
structure EdgeAcc where
  normalizedEdges : List NormalizedEdge
  edgesByNodeIndex : List (List NormalizedEdge)
  base : List ℚ
  edgeCursor : Nat
deriving DecidableEq

/-- Models `edgesByNodeIndex[i].push(e)` (in-range writes only, as in JS where the
index always comes from `indexById`). -/
def pushAt (a : List (List NormalizedEdge)) (i : Nat) (e : NormalizedEdge) :
    List (List NormalizedEdge) :=
  a.set i (a.getD i [] ++ [e])

/-- One iteration of the edge loop: skip a dangling edge, otherwise append
its six endpoint coordinates, record the normalized edge, and push it onto
both endpoints' adjacency entries (source first, then target). -/
def edgeStep (indexById : List (Int × Nat)) (positions : List ℚ)
    (acc : EdgeAcc) (edge : RawEdge) : EdgeAcc :=
  match jsMapGet indexById edge.source, jsMapGet indexById edge.target with
  | some sourceIndex, some targetIndex =>
    let sourceOffset := sourceIndex * 3
    let targetOffset := targetIndex * 3
    let normalized : NormalizedEdge :=
      { source := edge.source, target := edge.target
        sourceIndex := sourceIndex, targetIndex := targetIndex }
    { normalizedEdges := acc.normalizedEdges ++ [normalized]
      edgesByNodeIndex := pushAt (pushAt acc.edgesByNodeIndex sourceIndex normalized)
        targetIndex normalized
      base := acc.base ++
        [positions.getD sourceOffset 0, positions.getD (sourceOffset + 1) 0,
         positions.getD (sourceOffset + 2) 0, positions.getD targetOffset 0,
         positions.getD (targetOffset + 1) 0, positions.getD (targetOffset + 2) 0]
      edgeCursor := acc.edgeCursor + 6 }
  | _, _ => acc

/-- The derived snapshot returned by `processPackage` (the impure
`loadedAt` wall-clock timestamp is not modelled). -/
structure Snapshot where
  manifest : Manifest
  displayField : String
  nodes : List ProcessedNode
  edges : List NormalizedEdge
  species : List SpeciesEntry
  speciesLegend : List LegendEntry
  positions : List ℚ
  colors : List ℚ
  baseEdgePositions : List ℚ
  edgesByNodeIndex : List (List NormalizedEdge)
  indexById : List (Int × Nat)
deriving DecidableEq

/-- Models `processPackage({manifest, nodes, edges, species})`. The preallocated
`Float32Array(edges.length * 6)` is zero-filled; sequential writes fill its
prefix, so the buffer before slicing is the written prefix padded with
zeros, and the final `slice(0, edgeCursor)` is a `take`. -/
def processPackage (env : DisplayEnv) (pkg : Package) : Snapshot :=
  let displayField := chooseDisplayField pkg.manifest pkg.nodes
  let sortedNodes := sortedNodesOf env displayField pkg.nodes
  let byKey := speciesByKey pkg.species
  let indexById := buildIndexById sortedNodes
  let positions := buildPositions sortedNodes
  let colors := buildColors byKey sortedNodes
  let acc := pkg.edges.foldl (edgeStep indexById positions)
    { normalizedEdges := []
      edgesByNodeIndex := List.replicate sortedNodes.length []
      base := []
      edgeCursor := 0 }
  let baseFull := acc.base ++ List.replicate (pkg.edges.length * 6 - acc.base.length) 0
  let speciesLegend :=
    (pkg.species.insertionSort (fun a b => b.count ≤ a.count)).map
      (fun entry => { toSpeciesEntry := entry, label := prettifySpeciesName entry.species })
  { manifest := pkg.manifest
    displayField := displayField
    nodes := sortedNodes
    edges := acc.normalizedEdges
    species := pkg.species
    speciesLegend := speciesLegend
    positions := positions
    colors := colors
    baseEdgePositions :=
      if acc.edgeCursor = baseFull.length then baseFull else baseFull.take acc.edgeCursor
    edgesByNodeIndex := acc.edgesByNodeIndex
    indexById := indexById }

/-! ### Package fetcher: `buildUrl`, `parseJsonDataUrl`, `fetchJson` -/

/-- Host environment of the fetcher. `atob`, `decodeURIComponent` and
`JSON.parse` are platform builtins (external collaborators): `atob` is
`none` when unavailable; each returns `none` where the builtin throws.
`jsonValues` are the parses of the platform's `JSON.parse`. -/
structure FetchEnv (α : Type) where
  dataPrefixVar : Option String
  LOCAL_DATA_URLS : List (String × String)
  atob : Option (String → Option String)
  decodeURIComponent : String → Option String
  jsonParse : String → Option α

/-- Models `.replace(/\/+$/, '')`. -/
def stripTrailingSlashes (s : String) : String :=
  String.mk ((s.toList.reverse.dropWhile (fun c => c = '/')).reverse)

/-- Models `const DATA_PREFIX = (import.meta.env.VITE_DATA_PREFIX ?? '').replace(/\/+$/, '')`. -/
def dataPrefixOf (v : Option String) : String :=
  stripTrailingSlashes (v.getD "")

/-- Models `.replace(/^\.?\//, '')`: one leading `/`, optionally preceded by `.`. -/
def stripDotSlash : List Char → List Char
  | '.' :: '/' :: rest => rest
  | '/' :: rest => rest
  | cs => cs

/-- The `clean` path: backslashes to slashes, strip `^\.?\/` then `^\/+`. -/
def cleanPath (filePath : String) : String :=
  String.mk
    ((stripDotSlash (filePath.toList.map (fun c => if c = '\\' then '/' else c))).dropWhile
      (fun c => c = '/'))

/-- Models `withCacheBust(url, cacheBust)`; `none` models a falsy `cacheBust`. -/
def withCacheBust (url : String) (cacheBust : Option Nat) : String :=
  match cacheBust with
  | none => url
  | some v => url ++ (if url.toList.contains '?' then "&" else "?") ++ "v=" ++ toString v

/-- Models `buildUrl(filePath, cacheBust)`; a bundled asset URL that is the empty
string is falsy and falls through to the site-root path. -/
def buildUrl {α : Type} (env : FetchEnv α) (filePath : String) (cacheBust : Option Nat) :
    String :=
  let clean := cleanPath filePath
  let dataPrefixVal := dataPrefixOf env.dataPrefixVar
  if dataPrefixVal ≠ "" then
    withCacheBust ("/" ++ dataPrefixVal ++ "/" ++ clean) cacheBust
  else
    match jsMapGet env.LOCAL_DATA_URLS clean with
    | some localAssetUrl =>
      if localAssetUrl = "" then withCacheBust ("/" ++ clean) cacheBust
      else withCacheBust localAssetUrl cacheBust
    | none => withCacheBust ("/" ++ clean) cacheBust

/-- Case-insensitive substring test (`/;base64/i.test(header)`). -/
def containsSeg (needle hay : List Char) : Bool :=
  hay.tails.any (fun t => needle.isPrefixOf t)

/-- Models `url.startsWith('data:')`, modelled characterwise. -/
def jsStartsWith (s pre : String) : Bool :=
  pre.toList.isPrefixOf s.toList

/-- Models `parseJsonDataUrl(url)`: split at the first comma, decode the payload
via `atob` or `decodeURIComponent` according to the `;base64` tag, then
`JSON.parse` the decoded text (the `String(url ?? '')` coercion is the
identity here, so `value` is the url's character list itself). -/
def parseJsonDataUrl {α : Type} (env : FetchEnv α) (url : String) : Except String α :=
  match url.toList.findIdx? (fun c => c = ',') with
  | none => Except.error "Invalid data URL for JSON asset"
  | some commaIndex =>
    let header := url.toList.take commaIndex
    let payload := String.mk (url.toList.drop (commaIndex + 1))
    let isBase64 := containsSeg ";base64".toList (header.map Char.toLower)
    let decoded : Except String String :=
      if isBase64 then
        match env.atob with
        | some f =>
          match f payload with
          | some d => Except.ok d
          | none => Except.error "InvalidCharacterError"
        | none => Except.error "Base64 data URL decoding is not available in this environment"
      else
        match env.decodeURIComponent payload with
        | some d => Except.ok d
        | none => Except.error "URIError: malformed URI sequence"
    match decoded with
    | Except.error e => Except.error e
    | Except.ok d =>
      match env.jsonParse d with
      | some v => Except.ok v
      | none => Except.error "JSON parse error"

/-- Outcome of `fetchJson`: either a real HTTP request would be issued for
`url` (the network collaborator boundary), or a locally decoded result. -/
inductive FetchResult (α : Type) where
  | network (url : String)
  | ok (value : α)
  | err (message : String)
deriving DecidableEq

/-- Models `fetchJson(filePath, {signal, cacheBust})`: a resolved `data:` URL is
decoded locally; anything else goes to the network. -/
def fetchJson {α : Type} (env : FetchEnv α) (filePath : String) (cacheBust : Option Nat) :
    FetchResult α :=
  let url := buildUrl env filePath cacheBust
  if jsStartsWith url "data:" then
    match parseJsonDataUrl env url with
    | Except.ok v => FetchResult.ok v
    | Except.error e => FetchResult.err e
  else
    FetchResult.network url

/-! ### `useHypercubeData` session controller -/

/-- The three observable statuses. -/
inductive Status where
  | loading
  | ready
  | error
deriving DecidableEq

/-- The `useState` cell `{status, data, error}`. -/
structure HookState where
  status : Status
  data : Option Snapshot
  error : Option String
deriving DecidableEq

/-- The per-effect closure flags: the `active` local and
`controller.signal.aborted`. -/
structure GenFlags where
  active : Bool
  aborted : Bool
deriving DecidableEq

/-- Whole-controller state: `refreshToken` identifies the current load
generation; `gens` carries each generation's closure flags (generations not
yet started are inactive and unaborted). -/
structure ControllerState where
  refreshToken : Nat
  gens : Nat → GenFlags
  state : HookState

/-- Scheduler events: the cleanup-plus-restart performed by `reload()`
(the effect re-runs because `refreshToken` changed), the cleanup alone
performed on unmount, or the async load body of generation `g` resuming
with its result. -/
inductive HookEvent where
  | reload
  | unmount
  | complete (generation : Nat) (result : Except String Package)

/-- One event of the controller. `reload` runs the old generation's cleanup
(`active = false`, `controller.abort()`) and starts the next generation with
`setState(prev => ({...prev, status: 'loading', error: null}))`. A
completion commits only under the code's guards: success requires `active`;
failure requires `active` and a non-aborted signal. -/
def hookStep (env : DisplayEnv) (s : ControllerState) (e : HookEvent) : ControllerState :=
  match e with
  | HookEvent.reload =>
    let g := s.refreshToken
    { refreshToken := g + 1
      gens := fun k =>
        if k = g then { active := false, aborted := true }
        else if k = g + 1 then { active := true, aborted := false }
        else s.gens k
      state := { s.state with status := Status.loading, error := none } }
  | HookEvent.unmount =>
    { s with gens := fun k =>
        if k = s.refreshToken then { active := false, aborted := true } else s.gens k }
  | HookEvent.complete g r =>
    let flags := s.gens g
    match r with
    | Except.ok pkg =>
      if flags.active then
        { s with state :=
            { status := Status.ready
              data := some (processPackage env pkg)
              error := none } }
      else s
    | Except.error msg =>
      if flags.active && !flags.aborted then
        { s with state := { status := Status.error, data := none, error := some msg } }
      else s

/-- Mount: initial `useState` value, generation 0 in flight. -/
def initController : ControllerState :=
  { refreshToken := 0
    gens := fun g =>
      if g = 0 then { active := true, aborted := false }
      else { active := false, aborted := false }
    state := { status := Status.loading, data := none, error := none } }

/-- The controller after a sequence of events from mount. -/
def runHook (env : DisplayEnv) (events : List HookEvent) : ControllerState :=
  events.foldl (hookStep env) initController

/-- The edge-loop guard and normalization, as one partial map: `some` with
the resolved indices when both endpoints are present, else `none`. -/
def keepEdge (indexById : List (Int × Nat)) (edge : RawEdge) : Option NormalizedEdge :=
  match jsMapGet indexById edge.source, jsMapGet indexById edge.target with
  | some sourceIndex, some targetIndex =>
    some { source := edge.source, target := edge.target
           sourceIndex := sourceIndex, targetIndex := targetIndex }
  | _, _ => none

/-- The six coordinates a kept edge contributes to `baseEdgePositions`. -/
def edgeChunk (positions : List ℚ) (ne : NormalizedEdge) : List ℚ :=
  [positions.getD (ne.sourceIndex * 3) 0, positions.getD (ne.sourceIndex * 3 + 1) 0,
   positions.getD (ne.sourceIndex * 3 + 2) 0, positions.getD (ne.targetIndex * 3) 0,
   positions.getD (ne.targetIndex * 3 + 1) 0, positions.getD (ne.targetIndex * 3 + 2) 0]

/-- The occurrences a kept edge contributes to adjacency entry `i`. -/
def slotContribution (i : Nat) (ne : NormalizedEdge) : List NormalizedEdge :=
  (if ne.sourceIndex = i then [ne] else []) ++ (if ne.targetIndex = i then [ne] else [])

/-! ### Concrete fixtures used to instantiate the theorems -/

/-- Default display environment (`freeform`, default amount). -/
def envW : DisplayEnv :=
  { shapeModeVar := none, spherifyAmount := 82/100, sqrt := fun _ => 0 }

/-- Spherify environment with amount 0. -/
def envSpherify0 : DisplayEnv :=
  { shapeModeVar := some "spherify", spherifyAmount := 0, sqrt := fun _ => 0 }

/-- A node with id 1. -/
def nodeA : RawNode :=
  { id := 1, species := "alpha", position_cloud := none,
    position := some { x := 1, y := 2, z := 3 }, position_tsne := none, position_raw := none }

/-- A node with id 2. -/
def nodeB : RawNode :=
  { id := 2, species := "beta", position_cloud := none,
    position := some { x := 4, y := 5, z := 6 }, position_tsne := none, position_raw := none }

/-- A two-node package with a kept edge, a dangling edge and a self-loop. -/
def pkgW : Package :=
  { manifest := { default_field := none }
    nodes := [nodeB, nodeA]
    edges := [{ source := 1, target := 2 }, { source := 1, target := 9 },
              { source := 2, target := 2 }]
    species := [{ species := "alpha", count := 1, colorHex := some "#ff0000" }] }

/-- The normalized form of `pkgW`'s first edge. -/
def neW : NormalizedEdge :=
  { source := 1, target := 2, sourceIndex := 0, targetIndex := 1 }

/-- A package whose single node's species has no entry in the species list. -/
def pkgC5 : Package :=
  { manifest := { default_field := none }
    nodes := [nodeA]
    edges := []
    species := [] }

/-- The empty package. -/
def pkgE : Package :=
  { manifest := { default_field := none }, nodes := [], edges := [], species := [] }

/-- A fetch environment whose bundled `nodes.json` is an inline data URL. -/
def envF : FetchEnv Nat :=
  { dataPrefixVar := none
    LOCAL_DATA_URLS := [("nodes.json", "data:application/json,42")]
    atob := none
    decodeURIComponent := fun s => some s
    jsonParse := fun s => if s = "42" then some 42 else none }

/-- Generation bookkeeping invariant: a generation other than the current
one is never active, and an aborted generation is never active. -/
def genInv (s : ControllerState) : Prop :=
  (∀ g, g ≠ s.refreshToken → (s.gens g).active = false) ∧
  (∀ g, (s.gens g).aborted = true → (s.gens g).active = false)

/-! ## Lemmas about the JS `Map` model -/

theorem foldl_jsMapSet {γ α β : Type} (f : γ → α × β) :
    ∀ (l : List γ) (acc : List (α × β)),
      l.foldl (fun m x => jsMapSet m (f x).1 (f x).2) acc = acc ++ l.map f
  | [], acc => by simp
  | x :: l, acc => by
    rw [List.foldl_cons, foldl_jsMapSet f l]
    simp [jsMapSet]

theorem jsMapGet_mem {α β : Type} [DecidableEq α] {m : List (α × β)} {k : α} {v : β}
    (h : jsMapGet m k = some v) : (k, v) ∈ m := by
  unfold jsMapGet at h
  cases hf : m.reverse.find? (fun p => p.1 = k) with
  | none => rw [hf] at h; simp at h
  | some p =>
    rw [hf] at h
    simp only [Option.map_some', Option.some.injEq] at h
    have hm : p ∈ m.reverse := List.mem_of_find?_eq_some hf
    have hp : p.1 = k := by
      have := List.find?_some hf
      simpa using this
    rw [List.mem_reverse] at hm
    have : p = (k, v) := by
      cases p
      simp_all
    rwa [this] at hm

theorem jsMapGet_eq_none {α β : Type} [DecidableEq α] {m : List (α × β)} {k : α} :
    jsMapGet m k = none ↔ ∀ p ∈ m, p.1 ≠ k := by
  unfold jsMapGet
  rw [Option.map_eq_none']
  rw [List.find?_eq_none]
  constructor
  · intro h p hp
    have := h p (List.mem_reverse.2 hp)
    simpa using this
  · intro h p hp
    have := h p (List.mem_reverse.1 hp)
    simpa using this

/-! ## Lemmas about `buildIndexById` -/

theorem buildIndexById_eq (ns : List ProcessedNode) :
    buildIndexById ns = ns.enum.map (fun p => (p.2.id, p.1)) := by
  have := foldl_jsMapSet (fun p : Nat × ProcessedNode => (p.2.id, p.1)) ns.enum []
  simpa [buildIndexById] using this

theorem indexById_mem {ns : List ProcessedNode} {k : Int} {i : Nat}
    (h : (k, i) ∈ buildIndexById ns) : ∃ n, ns[i]? = some n ∧ n.id = k := by
  rw [buildIndexById_eq] at h
  obtain ⟨p, hp, he⟩ := List.mem_map.1 h
  obtain ⟨j, n⟩ := p
  simp only [Prod.mk.injEq] at he
  obtain ⟨hid, hj⟩ := he
  subst hj
  have := List.mk_mem_enum_iff_getElem?.1 hp
  exact ⟨n, this, hid⟩

theorem indexById_get_some {ns : List ProcessedNode} {k : Int} {i : Nat}
    (h : jsMapGet (buildIndexById ns) k = some i) :
    ∃ n, ns[i]? = some n ∧ n.id = k :=
  indexById_mem (jsMapGet_mem h)

theorem indexById_lt {ns : List ProcessedNode} {k : Int} {i : Nat}
    (h : jsMapGet (buildIndexById ns) k = some i) : i < ns.length := by
  obtain ⟨n, hn, _⟩ := indexById_get_some h
  exact (List.getElem?_eq_some.1 hn).1

theorem indexById_eq_none_iff {ns : List ProcessedNode} {k : Int} :
    jsMapGet (buildIndexById ns) k = none ↔ ∀ n ∈ ns, n.id ≠ k := by
  rw [jsMapGet_eq_none, buildIndexById_eq]
  constructor
  · intro h n hn hk
    obtain ⟨i, hi⟩ := List.mem_iff_getElem?.1 hn
    have hmem : ((i, n) : Nat × ProcessedNode) ∈ ns.enum := List.mk_mem_enum_iff_getElem?.2 hi
    exact h (n.id, i) (List.mem_map_of_mem _ hmem) hk
  · intro h p hp hk
    obtain ⟨q, hq, he⟩ := List.mem_map.1 hp
    obtain ⟨j, n⟩ := q
    have hget := List.mk_mem_enum_iff_getElem?.1 hq
    have hmem : n ∈ ns := List.getElem?_mem hget
    apply h n hmem
    simp only [← he] at hk
    exact hk

theorem indexById_self {ns : List ProcessedNode}
    (hnd : (ns.map (fun n => n.id)).Nodup) (i : Nat) (hi : i < ns.length) :
    jsMapGet (buildIndexById ns) ns[i].id = some i := by
  cases h : jsMapGet (buildIndexById ns) ns[i].id with
  | none =>
    exfalso
    exact (indexById_eq_none_iff.1 h) ns[i] (List.getElem_mem hi) rfl
  | some j =>
    obtain ⟨n, hj, hid⟩ := indexById_get_some h
    have hjl : j < ns.length := (List.getElem?_eq_some.1 hj).1
    have hnj : ns[j] = n := (List.getElem?_eq_some.1 hj).2
    have hjl2 : j < (ns.map (fun n => n.id)).length := by simpa using hjl
    have hil2 : i < (ns.map (fun n => n.id)).length := by simpa using hi
    have hij : (ns.map (fun n => n.id))[j] = (ns.map (fun n => n.id))[i] := by
      simp only [List.getElem_map]
      rw [hnj, hid]
    have := List.Nodup.getElem_inj_iff hnd |>.1 hij
    rw [this]

/-! ## Lemmas about the edge loop -/

theorem pushAt_length (a : List (List NormalizedEdge)) (j : Nat) (e : NormalizedEdge) :
    (pushAt a j e).length = a.length := by
  simp [pushAt]

theorem pushAt_getD (a : List (List NormalizedEdge)) (j : Nat) (e : NormalizedEdge)
    (i : Nat) (hj : j < a.length) :
    (pushAt a j e).getD i [] = a.getD i [] ++ (if j = i then [e] else []) := by
  unfold pushAt
  by_cases hij : j = i
  · subst hij
    simp [List.getD_eq_getElem?_getD, List.getElem?_set_self hj]
  · simp [List.getD_eq_getElem?_getD, List.getElem?_set_ne hij, hij]

theorem sum_map_length_pushAt :
    ∀ (a : List (List NormalizedEdge)) (j : Nat) (e : NormalizedEdge), j < a.length →
      ((pushAt a j e).map (fun l => l.length)).sum = (a.map (fun l => l.length)).sum + 1
  | [], j, e, h => absurd h (by simp)
  | x :: a, 0, e, _ => by
    simp [pushAt, List.getD]
    omega
  | x :: a, j + 1, e, h => by
    have hstep : pushAt (x :: a) (j + 1) e = x :: pushAt a j e := by
      simp [pushAt, List.getD_eq_getElem?_getD]
    rw [hstep]
    have := sum_map_length_pushAt a j e (by simpa using h)
    simp only [List.map_cons, List.sum_cons, this]
    omega

theorem foldl_edgeStep_spec (ib : List (Int × Nat)) (pos : List ℚ) :
    ∀ (edges : List RawEdge) (acc : EdgeAcc),
      (edges.foldl (edgeStep ib pos) acc).normalizedEdges
          = acc.normalizedEdges ++ edges.filterMap (keepEdge ib) ∧
      (edges.foldl (edgeStep ib pos) acc).base
          = acc.base ++ (edges.filterMap (keepEdge ib)).flatMap (edgeChunk pos) ∧
      (edges.foldl (edgeStep ib pos) acc).edgeCursor
          = acc.edgeCursor + 6 * (edges.filterMap (keepEdge ib)).length ∧
      (edges.foldl (edgeStep ib pos) acc).edgesByNodeIndex.length
          = acc.edgesByNodeIndex.length
  | [], acc => by simp
  | e :: edges, acc => by
    rw [List.foldl_cons]
    cases h1 : jsMapGet ib e.source with
    | none =>
      have hstep : edgeStep ib pos acc e = acc := by
        unfold edgeStep
        rw [h1]
      have hk : keepEdge ib e = none := by
        unfold keepEdge
        rw [h1]
      rw [hstep, List.filterMap_cons_none hk]
      exact foldl_edgeStep_spec ib pos edges acc
    | some si =>
      cases h2 : jsMapGet ib e.target with
      | none =>
        have hstep : edgeStep ib pos acc e = acc := by
          unfold edgeStep
          rw [h1, h2]
        have hk : keepEdge ib e = none := by
          unfold keepEdge
          rw [h1, h2]
        rw [hstep, List.filterMap_cons_none hk]
        exact foldl_edgeStep_spec ib pos edges acc
      | some ti =>
        set ne : NormalizedEdge :=
          { source := e.source, target := e.target, sourceIndex := si, targetIndex := ti }
          with hne
        have hstep : edgeStep ib pos acc e =
            { normalizedEdges := acc.normalizedEdges ++ [ne]
              edgesByNodeIndex := pushAt (pushAt acc.edgesByNodeIndex si ne) ti ne
              base := acc.base ++ edgeChunk pos ne
              edgeCursor := acc.edgeCursor + 6 } := by
          unfold edgeStep
          rw [h1, h2]
          rfl
        have hk : keepEdge ib e = some ne := by
          unfold keepEdge
          rw [h1, h2]
        rw [hstep, List.filterMap_cons_some hk]
        obtain ⟨ha, hb, hc, hd⟩ := foldl_edgeStep_spec ib pos edges
          { normalizedEdges := acc.normalizedEdges ++ [ne]
            edgesByNodeIndex := pushAt (pushAt acc.edgesByNodeIndex si ne) ti ne
            base := acc.base ++ edgeChunk pos ne
            edgeCursor := acc.edgeCursor + 6 }
        refine ⟨?_, ?_, ?_, ?_⟩
        · rw [ha]
          simp
        · rw [hb]
          simp
        · rw [hc]
          simp only [List.length_cons]
          omega
        · rw [hd]
          simp [pushAt_length]

theorem foldl_edgeStep_slot (ib : List (Int × Nat)) (pos : List ℚ) :
    ∀ (edges : List RawEdge) (acc : EdgeAcc),
      (∀ k j, jsMapGet ib k = some j → j < acc.edgesByNodeIndex.length) →
      ∀ (i : Nat),
        (edges.foldl (edgeStep ib pos) acc).edgesByNodeIndex.getD i []
          = acc.edgesByNodeIndex.getD i []
              ++ (edges.filterMap (keepEdge ib)).flatMap (slotContribution i)
  | [], acc, _, i => by simp
  | e :: edges, acc, hb, i => by
    rw [List.foldl_cons]
    cases h1 : jsMapGet ib e.source with
    | none =>
      have hstep : edgeStep ib pos acc e = acc := by
        unfold edgeStep
        rw [h1]
      have hk : keepEdge ib e = none := by
        unfold keepEdge
        rw [h1]
      rw [hstep, List.filterMap_cons_none hk]
      exact foldl_edgeStep_slot ib pos edges acc hb i
    | some si =>
      cases h2 : jsMapGet ib e.target with
      | none =>
        have hstep : edgeStep ib pos acc e = acc := by
          unfold edgeStep
          rw [h1, h2]
        have hk : keepEdge ib e = none := by
          unfold keepEdge
          rw [h1, h2]
        rw [hstep, List.filterMap_cons_none hk]
        exact foldl_edgeStep_slot ib pos edges acc hb i
      | some ti =>
        set ne : NormalizedEdge :=
          { source := e.source, target := e.target, sourceIndex := si, targetIndex := ti }
          with hne
        have hsi : si < acc.edgesByNodeIndex.length := hb e.source si h1
        have hti : ti < acc.edgesByNodeIndex.length := hb e.target ti h2
        have hstep : edgeStep ib pos acc e =
            { normalizedEdges := acc.normalizedEdges ++ [ne]
              edgesByNodeIndex := pushAt (pushAt acc.edgesByNodeIndex si ne) ti ne
              base := acc.base ++ edgeChunk pos ne
              edgeCursor := acc.edgeCursor + 6 } := by
          unfold edgeStep
          rw [h1, h2]
          rfl
        have hk : keepEdge ib e = some ne := by
          unfold keepEdge
          rw [h1, h2]
        rw [hstep, List.filterMap_cons_some hk]
        have hb' : ∀ k j, jsMapGet ib k = some j →
            j < (pushAt (pushAt acc.edgesByNodeIndex si ne) ti ne).length := by
          intro k j hj
          rw [pushAt_length, pushAt_length]
          exact hb k j hj
        rw [foldl_edgeStep_slot ib pos edges _ hb' i]
        show (pushAt (pushAt acc.edgesByNodeIndex si ne) ti ne).getD i [] ++ _ = _
        rw [pushAt_getD _ ti ne i (by rw [pushAt_length]; exact hti),
          pushAt_getD _ si ne i hsi]
        simp only [List.flatMap_cons, slotContribution, hne]
        simp [List.append_assoc]

theorem foldl_edgeStep_sum (ib : List (Int × Nat)) (pos : List ℚ) :
    ∀ (edges : List RawEdge) (acc : EdgeAcc),
      (∀ k j, jsMapGet ib k = some j → j < acc.edgesByNodeIndex.length) →
      ((edges.foldl (edgeStep ib pos) acc).edgesByNodeIndex.map (fun l => l.length)).sum
        = (acc.edgesByNodeIndex.map (fun l => l.length)).sum
            + 2 * (edges.filterMap (keepEdge ib)).length
  | [], acc, _ => by simp
  | e :: edges, acc, hb => by
    rw [List.foldl_cons]
    cases h1 : jsMapGet ib e.source with
    | none =>
      have hstep : edgeStep ib pos acc e = acc := by
        unfold edgeStep
        rw [h1]
      have hk : keepEdge ib e = none := by
        unfold keepEdge
        rw [h1]
      rw [hstep, List.filterMap_cons_none hk]
      exact foldl_edgeStep_sum ib pos edges acc hb
    | some si =>
      cases h2 : jsMapGet ib e.target with
      | none =>
        have hstep : edgeStep ib pos acc e = acc := by
          unfold edgeStep
          rw [h1, h2]
        have hk : keepEdge ib e = none := by
          unfold keepEdge
          rw [h1, h2]
        rw [hstep, List.filterMap_cons_none hk]
        exact foldl_edgeStep_sum ib pos edges acc hb
      | some ti =>
        set ne : NormalizedEdge :=
          { source := e.source, target := e.target, sourceIndex := si, targetIndex := ti }
          with hne
        have hsi : si < acc.edgesByNodeIndex.length := hb e.source si h1
        have hti : ti < acc.edgesByNodeIndex.length := hb e.target ti h2
        have hstep : edgeStep ib pos acc e =
            { normalizedEdges := acc.normalizedEdges ++ [ne]
              edgesByNodeIndex := pushAt (pushAt acc.edgesByNodeIndex si ne) ti ne
              base := acc.base ++ edgeChunk pos ne
              edgeCursor := acc.edgeCursor + 6 } := by
          unfold edgeStep
          rw [h1, h2]
          rfl
        have hk : keepEdge ib e = some ne := by
          unfold keepEdge
          rw [h1, h2]
        rw [hstep, List.filterMap_cons_some hk]
        have hb' : ∀ k j, jsMapGet ib k = some j →
            j < (pushAt (pushAt acc.edgesByNodeIndex si ne) ti ne).length := by
          intro k j hj
          rw [pushAt_length, pushAt_length]
          exact hb k j hj
        rw [foldl_edgeStep_sum ib pos edges _ hb']
        show ((pushAt (pushAt acc.edgesByNodeIndex si ne) ti ne).map
            (fun l => l.length)).sum + _ = _
        rw [sum_map_length_pushAt _ ti ne (by rw [pushAt_length]; exact hti),
          sum_map_length_pushAt _ si ne hsi]
        simp only [List.length_cons]
        omega

theorem length_flatMap_edgeChunk (pos : List ℚ) :
    ∀ (l : List NormalizedEdge), (l.flatMap (edgeChunk pos)).length = 6 * l.length
  | [] => by simp
  | ne :: l => by
    simp only [List.flatMap_cons, List.length_append, length_flatMap_edgeChunk pos l,
      edgeChunk, List.length_cons]
    simp
    omega

/-! ## Snapshot projection lemmas -/

theorem processPackage_nodes_def (env : DisplayEnv) (pkg : Package) :
    (processPackage env pkg).nodes
      = sortedNodesOf env (chooseDisplayField pkg.manifest pkg.nodes) pkg.nodes := rfl

theorem processPackage_indexById_def (env : DisplayEnv) (pkg : Package) :
    (processPackage env pkg).indexById
      = buildIndexById (processPackage env pkg).nodes := rfl

theorem processPackage_positions_def (env : DisplayEnv) (pkg : Package) :
    (processPackage env pkg).positions = buildPositions (processPackage env pkg).nodes := rfl

theorem processPackage_colors_def (env : DisplayEnv) (pkg : Package) :
    (processPackage env pkg).colors
      = buildColors (speciesByKey pkg.species) (processPackage env pkg).nodes := rfl

/-- The fold that the edge loop performs, with the snapshot's own inputs. -/
theorem processPackage_edgeAcc_def (env : DisplayEnv) (pkg : Package) :
    ∃ acc : EdgeAcc,
      acc = pkg.edges.foldl
        (edgeStep (processPackage env pkg).indexById (processPackage env pkg).positions)
        { normalizedEdges := []
          edgesByNodeIndex := List.replicate (processPackage env pkg).nodes.length []
          base := []
          edgeCursor := 0 } ∧
      (processPackage env pkg).edges = acc.normalizedEdges ∧
      (processPackage env pkg).edgesByNodeIndex = acc.edgesByNodeIndex ∧
      (processPackage env pkg).baseEdgePositions =
        (if acc.edgeCursor
            = (acc.base ++ List.replicate (pkg.edges.length * 6 - acc.base.length) 0).length
         then acc.base ++ List.replicate (pkg.edges.length * 6 - acc.base.length) 0
         else (acc.base ++ List.replicate (pkg.edges.length * 6 - acc.base.length) 0).take
            acc.edgeCursor) :=
  ⟨_, rfl, rfl, rfl, rfl⟩

/-- The normalized edge list is exactly the raw list filtered and resolved
through `indexById`. -/
theorem processPackage_edges_eq (env : DisplayEnv) (pkg : Package) :
    (processPackage env pkg).edges
      = pkg.edges.filterMap (keepEdge (processPackage env pkg).indexById) := by
  obtain ⟨acc, hacc, hedges, -, -⟩ := processPackage_edgeAcc_def env pkg
  subst hacc
  rw [hedges]
  rw [(foldl_edgeStep_spec (processPackage env pkg).indexById
    (processPackage env pkg).positions pkg.edges _).1]
  simp

/-- Any index produced by the snapshot's `indexById` is in range for the
adjacency skeleton. -/
theorem processPackage_ib_bound (env : DisplayEnv) (pkg : Package) :
    ∀ (k : Int) (j : Nat), jsMapGet (processPackage env pkg).indexById k = some j →
      j < (processPackage env pkg).nodes.length := by
  intro k j h
  rw [processPackage_indexById_def] at h
  exact indexById_lt h

/-- Length of the sliced buffer (`edgeCursor === length ? buffer : slice`). -/
theorem length_slice_helper (fl : List ℚ) (k e : Nat) (hfl : fl.length = 6 * k)
    (hk : k ≤ e) :
    (if 6 * k = (fl ++ List.replicate (e * 6 - fl.length) 0).length
     then fl ++ List.replicate (e * 6 - fl.length) 0
     else (fl ++ List.replicate (e * 6 - fl.length) 0).take (6 * k)).length = 6 * k := by
  have hlen : (fl ++ List.replicate (e * 6 - fl.length) 0).length = e * 6 := by
    rw [List.length_append, List.length_replicate, hfl]
    omega
  split
  · next h => exact h.symm
  · rw [List.length_take, hlen]
    exact Nat.min_eq_left (by omega)

/-- C2: the derived `baseEdgePositions` buffer always has length six times
the kept edge count. -/
theorem processPackage_baseEdgePositions_length (env : DisplayEnv) (pkg : Package) :
    (processPackage env pkg).baseEdgePositions.length
      = 6 * (processPackage env pkg).edges.length := by
  obtain ⟨acc, hacc, hedges, -, hbase⟩ := processPackage_edgeAcc_def env pkg
  obtain ⟨h1, h2, h3, -⟩ := foldl_edgeStep_spec (processPackage env pkg).indexById
    (processPackage env pkg).positions pkg.edges
    { normalizedEdges := []
      edgesByNodeIndex := List.replicate (processPackage env pkg).nodes.length []
      base := []
      edgeCursor := 0 }
  rw [← hacc] at h1 h2 h3
  rw [List.nil_append] at h1 h2
  rw [Nat.zero_add] at h3
  have hk : (pkg.edges.filterMap (keepEdge (processPackage env pkg).indexById)).length
      ≤ pkg.edges.length := List.length_filterMap_le _ _
  rw [hbase, hedges, h1, h2, h3]
  exact length_slice_helper _ _ _ (length_flatMap_edgeChunk _ _) hk

/-- Destructing a kept edge: its resolved indices come from `indexById`
lookups of its own endpoint ids. -/
theorem keepEdge_some_elim {ib : List (Int × Nat)} {e : RawEdge} {ne : NormalizedEdge}
    (h : keepEdge ib e = some ne) :
    jsMapGet ib ne.source = some ne.sourceIndex ∧
    jsMapGet ib ne.target = some ne.targetIndex := by
  unfold keepEdge at h
  cases h1 : jsMapGet ib e.source with
  | none => rw [h1] at h; simp at h
  | some si =>
    cases h2 : jsMapGet ib e.target with
    | none => rw [h1, h2] at h; simp at h
    | some ti =>
      rw [h1, h2] at h
      simp only [Option.some.injEq] at h
      subst h
      exact ⟨h1, h2⟩

/-- C3: every edge in the derived snapshot carries endpoint indices that are
valid positions in `nodes` whose ids equal the edge's original `source` and
`target`; the retained edge list is exactly the raw list filtered by
"both endpoint ids resolve in `indexById`". -/
theorem processPackage_edge_integrity (env : DisplayEnv) (pkg : Package) :
    (∀ ne ∈ (processPackage env pkg).edges,
        (∃ n, (processPackage env pkg).nodes[ne.sourceIndex]? = some n ∧ n.id = ne.source) ∧
        (∃ n, (processPackage env pkg).nodes[ne.targetIndex]? = some n ∧ n.id = ne.target)) ∧
    (processPackage env pkg).edges
        = pkg.edges.filterMap (keepEdge (processPackage env pkg).indexById) ∧
    (∀ e : RawEdge,
        (keepEdge (processPackage env pkg).indexById e).isSome = true
          ↔ jsMapGet (processPackage env pkg).indexById e.source ≠ none
            ∧ jsMapGet (processPackage env pkg).indexById e.target ≠ none) := by
  refine ⟨?_, processPackage_edges_eq env pkg, ?_⟩
  · intro ne hne
    rw [processPackage_edges_eq] at hne
    obtain ⟨e, -, hk⟩ := List.mem_filterMap.1 hne
    obtain ⟨hs, ht⟩ := keepEdge_some_elim hk
    rw [processPackage_indexById_def] at hs ht
    exact ⟨indexById_get_some hs, indexById_get_some ht⟩
  · intro e
    unfold keepEdge
    cases h1 : jsMapGet (processPackage env pkg).indexById e.source with
    | none => simp [h1]
    | some si =>
      cases h2 : jsMapGet (processPackage env pkg).indexById e.target with
      | none => simp [h2]
      | some ti => simp

/-- Witness for C3 at `pkgW`: the kept edge `(1, 2)` resolves to indices 0
and 1, whose nodes carry ids 1 and 2. -/
theorem processPackage_edge_integrity_witness :
    (∃ n, (processPackage envW pkgW).nodes[neW.sourceIndex]? = some n ∧ n.id = neW.source) ∧
    (∃ n, (processPackage envW pkgW).nodes[neW.targetIndex]? = some n ∧ n.id = neW.target) :=
  (processPackage_edge_integrity envW pkgW).1 neW (by decide)

/-- Models `getD` of the all-empty adjacency skeleton. -/
theorem getD_replicate_nil (n i : Nat) :
    (List.replicate n ([] : List NormalizedEdge)).getD i [] = [] := by
  rw [List.getD_eq_getElem?_getD, List.getElem?_replicate]
  split <;> rfl

/-- C10: adjacency entry `i` consists of one occurrence of each kept edge
with `sourceIndex = i` plus one occurrence of each kept edge with
`targetIndex = i` (so a self-loop occurs twice in its single entry), and the
total number of adjacency occurrences is twice the kept edge count. -/
theorem processPackage_adjacency (env : DisplayEnv) (pkg : Package) :
    (∀ i : Nat,
        (processPackage env pkg).edgesByNodeIndex.getD i []
          = (processPackage env pkg).edges.flatMap (slotContribution i)) ∧
    ((processPackage env pkg).edgesByNodeIndex.map (fun l => l.length)).sum
        = 2 * (processPackage env pkg).edges.length ∧
    (processPackage env pkg).edgesByNodeIndex.length
        = (processPackage env pkg).nodes.length := by
  obtain ⟨acc, hacc, hedges, hadj, -⟩ := processPackage_edgeAcc_def env pkg
  have hb : ∀ (k : Int) (j : Nat),
      jsMapGet (processPackage env pkg).indexById k = some j →
      j < (List.replicate (processPackage env pkg).nodes.length
            ([] : List NormalizedEdge)).length := by
    intro k j hj
    rw [List.length_replicate]
    exact processPackage_ib_bound env pkg k j hj
  obtain ⟨h1, -, -, h4⟩ := foldl_edgeStep_spec (processPackage env pkg).indexById
    (processPackage env pkg).positions pkg.edges
    { normalizedEdges := []
      edgesByNodeIndex := List.replicate (processPackage env pkg).nodes.length []
      base := []
      edgeCursor := 0 }
  rw [← hacc] at h1 h4
  rw [List.nil_append] at h1
  refine ⟨?_, ?_, ?_⟩
  · intro i
    have hslot := foldl_edgeStep_slot (processPackage env pkg).indexById
      (processPackage env pkg).positions pkg.edges
      { normalizedEdges := []
        edgesByNodeIndex := List.replicate (processPackage env pkg).nodes.length []
        base := []
        edgeCursor := 0 } hb i
    rw [← hacc] at hslot
    rw [hadj, hslot, hedges, h1, getD_replicate_nil]
    simp
  · have hsum := foldl_edgeStep_sum (processPackage env pkg).indexById
      (processPackage env pkg).positions pkg.edges
      { normalizedEdges := []
        edgesByNodeIndex := List.replicate (processPackage env pkg).nodes.length []
        base := []
        edgeCursor := 0 } hb
    rw [← hacc] at hsum
    rw [hadj, hsum, hedges, h1]
    simp [List.map_replicate]
  · rw [hadj, h4]
    simp

/-! ## Sorting lemmas -/

theorem sortedNodesOf_pairwise (env : DisplayEnv) (displayField : String)
    (nodes : List RawNode) :
    (sortedNodesOf env displayField nodes).Pairwise (fun a b => a.id ≤ b.id) := by
  haveI : IsTotal RawNode (fun a b : RawNode => a.id ≤ b.id) :=
    ⟨fun a b => Int.le_total a.id b.id⟩
  haveI : IsTrans RawNode (fun a b : RawNode => a.id ≤ b.id) :=
    ⟨fun _ _ _ hab hbc => Int.le_trans hab hbc⟩
  have hs := List.sorted_insertionSort (fun a b : RawNode => a.id ≤ b.id) nodes
  unfold sortedNodesOf
  rw [List.pairwise_map]
  exact hs

theorem sortedNodesOf_ids_nodup (env : DisplayEnv) (displayField : String)
    {nodes : List RawNode} (h : (nodes.map (fun n => n.id)).Nodup) :
    ((sortedNodesOf env displayField nodes).map (fun n => n.id)).Nodup := by
  unfold sortedNodesOf
  rw [List.map_map]
  exact ((List.perm_insertionSort (fun a b : RawNode => a.id ≤ b.id) nodes).map
    (fun n => n.id)).nodup_iff.2 h

/-- Extracting the 3-wide chunk of node `i` from a per-node flat buffer. -/
theorem flatMap_chunk3 {γ δ : Type} (f : γ → List δ) (hf : ∀ b, (f b).length = 3) :
    ∀ (l : List γ) (i : Nat) (h : i < l.length),
      ((l.flatMap f).drop (3 * i)).take 3 = f (l[i])
  | a :: l, 0, _ => by
    simp only [List.flatMap_cons, Nat.mul_zero, List.drop_zero, List.getElem_cons_zero]
    exact List.take_left' (hf a)
  | a :: l, i + 1, h => by
    simp only [List.flatMap_cons, List.getElem_cons_succ]
    have h3 : 3 * (i + 1) = (f a).length + 3 * i := by rw [hf a]; ring
    rw [h3, ← List.drop_drop, List.drop_left]
    exact flatMap_chunk3 f hf l i (by simpa using h)

theorem hexToRgb01_length (hex : String) : (hexToRgb01 hex).length = 3 := by
  unfold hexToRgb01
  split <;> rfl

theorem buildPositions_slice (sortedNodes : List ProcessedNode) (i : Nat)
    (hi : i < sortedNodes.length) :
    ((buildPositions sortedNodes).drop (3 * i)).take 3
      = [sortedNodes[i].displayPosition.x, sortedNodes[i].displayPosition.y,
         sortedNodes[i].displayPosition.z] := by
  unfold buildPositions
  refine flatMap_chunk3 _ ?_ sortedNodes i hi
  intro b
  rfl

theorem buildColors_slice (byKey : List (String × SpeciesEntry))
    (sortedNodes : List ProcessedNode) (i : Nat) (hi : i < sortedNodes.length) :
    ((buildColors byKey sortedNodes).drop (3 * i)).take 3
      = hexToRgb01 (nodeColorHex byKey sortedNodes[i]) :=
  flatMap_chunk3 _ (fun n => hexToRgb01_length (nodeColorHex byKey n)) sortedNodes i hi

/-- C4: with unique node ids, the snapshot's node ids are strictly
increasing in array position, `indexById` maps each node's id back to its
position, and the position/color buffers are laid out in that same order. -/
theorem processPackage_nodes_sorted (env : DisplayEnv) (pkg : Package)
    (h : (pkg.nodes.map (fun n => n.id)).Nodup) :
    (∀ (i j : Nat) (hi : i < (processPackage env pkg).nodes.length)
        (hj : j < (processPackage env pkg).nodes.length), i < j →
        (processPackage env pkg).nodes[i].id < (processPackage env pkg).nodes[j].id) ∧
    (∀ (i : Nat) (hi : i < (processPackage env pkg).nodes.length),
        jsMapGet (processPackage env pkg).indexById
          ((processPackage env pkg).nodes[i].id) = some i) ∧
    (∀ (i : Nat) (hi : i < (processPackage env pkg).nodes.length),
        (((processPackage env pkg).positions.drop (3 * i)).take 3
          = [(processPackage env pkg).nodes[i].displayPosition.x,
             (processPackage env pkg).nodes[i].displayPosition.y,
             (processPackage env pkg).nodes[i].displayPosition.z]) ∧
        ((processPackage env pkg).colors.drop (3 * i)).take 3
          = hexToRgb01 (nodeColorHex (speciesByKey pkg.species)
              (processPackage env pkg).nodes[i])) := by
  have hnd : ((processPackage env pkg).nodes.map (fun n => n.id)).Nodup := by
    rw [processPackage_nodes_def]
    exact sortedNodesOf_ids_nodup env _ h
  refine ⟨?_, ?_, ?_⟩
  · have hle : (processPackage env pkg).nodes.Pairwise (fun a b => a.id ≤ b.id) := by
      rw [processPackage_nodes_def]
      exact sortedNodesOf_pairwise env _ pkg.nodes
    have hne : (processPackage env pkg).nodes.Pairwise (fun a b => a.id ≠ b.id) :=
      List.pairwise_map.mp hnd
    have hlt : (processPackage env pkg).nodes.Pairwise (fun a b => a.id < b.id) :=
      (hle.and hne).imp (fun hab => lt_of_le_of_ne hab.1 hab.2)
    intro i j hi hj hij
    exact List.pairwise_iff_getElem.mp hlt i j hi hj hij
  · intro i hi
    rw [processPackage_indexById_def]
    exact indexById_self hnd i hi
  · intro i hi
    constructor
    · rw [processPackage_positions_def]
      exact buildPositions_slice _ i hi
    · rw [processPackage_colors_def]
      exact buildColors_slice _ _ i hi

/-- Witness for C4 at `pkgW` (raw order `[id 2, id 1]`): sorted ids are
strictly increasing and `indexById` inverts positions. -/
theorem processPackage_nodes_sorted_witness :
    (pkgW.nodes.map (fun n => n.id)).Nodup ∧
    ((processPackage envW pkgW).nodes.get ⟨0, by decide⟩).id
      < ((processPackage envW pkgW).nodes.get ⟨1, by decide⟩).id :=
  ⟨by decide,
    (processPackage_nodes_sorted envW pkgW (by decide)).1 0 1 (by decide) (by decide)
      (by decide)⟩

/-- Evaluates `parseInt('111111', 16)` to `0x111111 = 1118481`. -/
theorem jsParseIntHex_111111 :
    jsParseIntHex (String.mk (hexFull "#111111")) = some 1118481 := by decide

/-- The default `'#111111'` color decodes to `(17/255, 17/255, 17/255)`. -/
theorem hexToRgb01_111111 : hexToRgb01 "#111111" = [17/255, 17/255, 17/255] := by
  unfold hexToRgb01
  rw [jsParseIntHex_111111]
  show [(shiftMask 1118481 16 : ℚ) / 255, (shiftMask 1118481 8 : ℚ) / 255,
    (Int.emod (toInt32 1118481) 256 : ℚ) / 255] = _
  have h1 : shiftMask 1118481 16 = 17 := by decide
  have h2 : shiftMask 1118481 8 = 17 := by decide
  have h3 : Int.emod (toInt32 1118481) 256 = 17 := by decide
  rw [h1, h2, h3]
  norm_num

/-- C5 (amended): a node whose species has no entry, or whose entry lacks
`color.hex`, receives the `'#111111'` default, i.e. `(17/255, 17/255,
17/255)`; the `(0.07, 0.07, 0.07)` fallback appears exactly when a `hex`
string is present but does not parse as a hex number. -/
theorem processPackage_color_fallback (env : DisplayEnv) (pkg : Package) (i : Nat)
    (hi : i < (processPackage env pkg).nodes.length) :
    ((jsMapGet (speciesByKey pkg.species)
        ((processPackage env pkg).nodes[i].species)).bind (fun e => e.colorHex) = none →
      ((processPackage env pkg).colors.drop (3 * i)).take 3
        = [17/255, 17/255, 17/255]) ∧
    (∀ s : String,
      (jsMapGet (speciesByKey pkg.species)
          ((processPackage env pkg).nodes[i].species)).bind (fun e => e.colorHex)
        = some s →
      jsParseIntHex (String.mk (hexFull s)) = none →
      ((processPackage env pkg).colors.drop (3 * i)).take 3 = [7/100, 7/100, 7/100]) := by
  have hslice : ((processPackage env pkg).colors.drop (3 * i)).take 3
      = hexToRgb01 (nodeColorHex (speciesByKey pkg.species)
          (processPackage env pkg).nodes[i]) := by
    rw [processPackage_colors_def]
    exact buildColors_slice _ _ i hi
  constructor
  · intro hnone
    rw [hslice]
    unfold nodeColorHex
    rw [hnone]
    exact hexToRgb01_111111
  · intro s hs hparse
    rw [hslice]
    unfold nodeColorHex
    rw [hs]
    show hexToRgb01 s = _
    unfold hexToRgb01
    rw [hparse]

/-- Counterexample to C5 as stated: in `pkgC5` the single node's species has
no entry in the species list, yet its color is `(17/255, 17/255, 17/255)`
(≈ 0.0667), not `(0.07, 0.07, 0.07)`. -/
theorem processPackage_color_fallback_counterexample :
    ((processPackage envW pkgC5).colors.drop (3 * 0)).take 3 ≠ [7/100, 7/100, 7/100] ∧
    ((processPackage envW pkgC5).colors.drop (3 * 0)).take 3 = [17/255, 17/255, 17/255] := by
  have hs : ((processPackage envW pkgC5).colors.drop (3 * 0)).take 3
      = hexToRgb01 (nodeColorHex (speciesByKey pkgC5.species)
          ((processPackage envW pkgC5).nodes.get ⟨0, by decide⟩)) := by
    rw [processPackage_colors_def]
    exact buildColors_slice _ _ 0 (by decide)
  have hhex : nodeColorHex (speciesByKey pkgC5.species)
      ((processPackage envW pkgC5).nodes.get ⟨0, by decide⟩) = "#111111" := by decide
  rw [hs, hhex, hexToRgb01_111111]
  constructor
  · norm_num
  · rfl

/-- Witness for the amended C5 at `pkgC5`. -/
theorem processPackage_color_fallback_witness :
    ((jsMapGet (speciesByKey pkgC5.species)
        (((processPackage envW pkgC5).nodes.get ⟨0, by decide⟩).species)).bind
      (fun e => e.colorHex) = none) ∧
    ((processPackage envW pkgC5).colors.drop (3 * 0)).take 3 = [17/255, 17/255, 17/255] :=
  ⟨by decide, (processPackage_color_fallback envW pkgC5 0 (by decide)).1 (by decide)⟩

/-! ## Controller lemmas -/

theorem initController_inv : genInv initController := by
  constructor
  · intro g hg
    have hg0 : g ≠ 0 := hg
    simp only [initController]
    rw [if_neg hg0]
  · intro g hab
    by_cases hg : g = 0
    · subst hg
      simp [initController] at hab
    · simp only [initController]
      rw [if_neg hg]

theorem hookStep_inv (env : DisplayEnv) (s : ControllerState) (e : HookEvent)
    (h : genInv s) : genInv (hookStep env s e) := by
  obtain ⟨h1, h2⟩ := h
  cases e with
  | reload =>
    constructor
    · intro g hg
      simp only [hookStep] at hg ⊢
      by_cases hgt : g = s.refreshToken
      · rw [if_pos hgt]
      · rw [if_neg hgt, if_neg hg]
        exact h1 g hgt
    · intro g hab
      simp only [hookStep] at hab ⊢
      by_cases hgt : g = s.refreshToken
      · rw [if_pos hgt]
      · by_cases hgn : g = s.refreshToken + 1
        · rw [if_neg hgt, if_pos hgn] at hab
          simp at hab
        · rw [if_neg hgt, if_neg hgn] at hab ⊢
          exact h2 g hab
  | unmount =>
    constructor
    · intro g hg
      simp only [hookStep] at hg ⊢
      by_cases hgt : g = s.refreshToken
      · rw [if_pos hgt]
      · rw [if_neg hgt]
        exact h1 g hg
    · intro g hab
      simp only [hookStep] at hab ⊢
      by_cases hgt : g = s.refreshToken
      · rw [if_pos hgt]
      · rw [if_neg hgt] at hab ⊢
        exact h2 g hab
  | complete g r =>
    have hgens : (hookStep env s (HookEvent.complete g r)).gens = s.gens := by
      cases r with
      | ok pkg => simp only [hookStep]; split <;> rfl
      | error msg => simp only [hookStep]; split <;> rfl
    have htok : (hookStep env s (HookEvent.complete g r)).refreshToken = s.refreshToken := by
      cases r with
      | ok pkg => simp only [hookStep]; split <;> rfl
      | error msg => simp only [hookStep]; split <;> rfl
    constructor
    · intro g' hg'
      rw [hgens]
      rw [htok] at hg'
      exact h1 g' hg'
    · intro g' hab
      rw [hgens]
      rw [hgens] at hab
      exact h2 g' hab

theorem runHook_inv (env : DisplayEnv) (es : List HookEvent) : genInv (runHook env es) := by
  suffices h : ∀ (l : List HookEvent) (s : ControllerState), genInv s →
      genInv (l.foldl (hookStep env) s) by
    exact h es initController initController_inv
  intro l
  induction l with
  | nil => intro s hs; exact hs
  | cons e l ih =>
    intro s hs
    exact ih (hookStep env s e) (hookStep_inv env s e hs)

/-- An inactive generation's completion changes nothing. -/
theorem hookStep_complete_inactive (env : DisplayEnv) (s : ControllerState) (g : Nat)
    (r : Except String Package) (hA : (s.gens g).active = false) :
    hookStep env s (HookEvent.complete g r) = s := by
  unfold hookStep
  cases r with
  | ok pkg => simp [hA]
  | error msg => simp [hA]

/-- C1: once a generation is superseded (it is no longer the current
`refreshToken`) or its cancellation signal is aborted, its completion —
success or failure — leaves the observable state untouched; in particular a
cancelled load never transitions the controller to `error`. -/
theorem useHypercubeData_latest_generation_wins (env : DisplayEnv) (es : List HookEvent)
    (g : Nat) (r : Except String Package) :
    (g ≠ (runHook env es).refreshToken →
      hookStep env (runHook env es) (HookEvent.complete g r) = runHook env es) ∧
    (((runHook env es).gens g).aborted = true →
      hookStep env (runHook env es) (HookEvent.complete g r) = runHook env es) := by
  obtain ⟨h1, h2⟩ := runHook_inv env es
  constructor
  · intro hg
    exact hookStep_complete_inactive env _ g r (h1 g hg)
  · intro hab
    exact hookStep_complete_inactive env _ g r (h2 g hab)

/-- Witness for C1: after `reload()`, generation 0 is superseded and
aborted, and its late failure completion is a no-op. -/
theorem useHypercubeData_latest_generation_wins_witness :
    ((0 ≠ (runHook envW [HookEvent.reload]).refreshToken) ∧
      ((runHook envW [HookEvent.reload]).gens 0).aborted = true) ∧
    hookStep envW (runHook envW [HookEvent.reload])
        (HookEvent.complete 0 (Except.error "boom"))
      = runHook envW [HookEvent.reload] :=
  ⟨⟨by decide, by decide⟩,
    (useHypercubeData_latest_generation_wins envW [HookEvent.reload] 0
      (Except.error "boom")).1 (by decide)⟩

/-- Counterexample to C6 as stated: commit a snapshot, then `reload()`; the
controller is `loading` yet still exposes the previously committed data —
the implementation does not null `data` on entering `loading`. -/
theorem loading_exposes_previous_data_counterexample :
    (runHook envW [HookEvent.complete 0 (Except.ok pkgE), HookEvent.reload]).state.status
        = Status.loading ∧
    (runHook envW [HookEvent.complete 0 (Except.ok pkgE), HookEvent.reload]).state.data
        ≠ none := by
  constructor
  · rfl
  · intro h
    simp [runHook, hookStep, initController] at h

/-- C6 (amended): entering `loading` via `reload()` clears the error and
sets the status but leaves the previously committed `data` visible; only the
initial mount state has `data = none` while `loading`. -/
theorem reload_preserves_committed_data (env : DisplayEnv) (es : List HookEvent) :
    (hookStep env (runHook env es) HookEvent.reload).state.data
        = (runHook env es).state.data ∧
    (hookStep env (runHook env es) HookEvent.reload).state.status = Status.loading ∧
    (hookStep env (runHook env es) HookEvent.reload).state.error = none ∧
    (runHook env []).state.data = none ∧
    (runHook env []).state.status = Status.loading :=
  ⟨rfl, rfl, rfl, rfl, rfl⟩

/-! ## Stylizer theorems -/

/-- C9: outside `spherify` mode the stylizer multiplies all three components
by the global scale `0.95`; in particular `(0.5, -0.5, 0.2)` maps to exactly
`(0.475, -0.475, 0.19)`. -/
theorem stylizeDisplayPosition_freeform (env : DisplayEnv)
    (h : DISPLAY_SHAPE_MODE env ≠ "spherify") :
    (∀ v : Vec3, stylizeDisplayPosition env v
        = { x := v.x * DISPLAY_GLOBAL_SCALE, y := v.y * DISPLAY_GLOBAL_SCALE,
            z := v.z * DISPLAY_GLOBAL_SCALE }) ∧
    stylizeDisplayPosition env { x := 1/2, y := -(1/2), z := 1/5 }
      = { x := 19/40, y := -(19/40), z := 19/100 } := by
  have hall : ∀ v : Vec3, stylizeDisplayPosition env v
      = { x := v.x * DISPLAY_GLOBAL_SCALE, y := v.y * DISPLAY_GLOBAL_SCALE,
          z := v.z * DISPLAY_GLOBAL_SCALE } := by
    intro v
    unfold stylizeDisplayPosition
    rw [if_pos h]
  refine ⟨hall, ?_⟩
  rw [hall]
  simp only [Vec3.mk.injEq, DISPLAY_GLOBAL_SCALE]
  norm_num

/-- Witness for C9 under the default (`freeform`) environment. -/
theorem stylizeDisplayPosition_freeform_witness :
    DISPLAY_SHAPE_MODE envW ≠ "spherify" ∧
    stylizeDisplayPosition envW { x := 1/2, y := -(1/2), z := 1/5 }
      = { x := 19/40, y := -(19/40), z := 19/100 } :=
  ⟨by decide, (stylizeDisplayPosition_freeform envW (by decide)).2⟩

/-- C8: in `spherify` mode, amount 0 yields the clamped input times the
global scale, and amount 1 yields the cube→sphere remap of the clamped
input times the global scale. -/
theorem stylizeDisplayPosition_spherify_boundary (env : DisplayEnv)
    (h : DISPLAY_SHAPE_MODE env = "spherify") (v : Vec3) :
    (env.spherifyAmount = 0 → stylizeDisplayPosition env v =
      { x := max (-1) (min 1 v.x) * DISPLAY_GLOBAL_SCALE
        y := max (-1) (min 1 v.y) * DISPLAY_GLOBAL_SCALE
        z := max (-1) (min 1 v.z) * DISPLAY_GLOBAL_SCALE }) ∧
    (env.spherifyAmount = 1 → stylizeDisplayPosition env v =
      { x := (cubeToSphere env.sqrt
            { x := max (-1) (min 1 v.x), y := max (-1) (min 1 v.y),
              z := max (-1) (min 1 v.z) }).x * DISPLAY_GLOBAL_SCALE
        y := (cubeToSphere env.sqrt
            { x := max (-1) (min 1 v.x), y := max (-1) (min 1 v.y),
              z := max (-1) (min 1 v.z) }).y * DISPLAY_GLOBAL_SCALE
        z := (cubeToSphere env.sqrt
            { x := max (-1) (min 1 v.x), y := max (-1) (min 1 v.y),
              z := max (-1) (min 1 v.z) }).z * DISPLAY_GLOBAL_SCALE }) := by
  have hifneg : ¬ (DISPLAY_SHAPE_MODE env ≠ "spherify") := fun hc => hc h
  constructor
  · intro h0
    unfold stylizeDisplayPosition
    rw [if_neg hifneg]
    simp only [h0, Vec3.mk.injEq]
    have ht : max (0 : ℚ) (min 1 0) = 0 := by norm_num
    rw [ht]
    refine ⟨by ring, by ring, by ring⟩
  · intro h1
    unfold stylizeDisplayPosition
    rw [if_neg hifneg]
    simp only [h1, Vec3.mk.injEq]
    have ht : max (0 : ℚ) (min 1 1) = 1 := by norm_num
    rw [ht]
    refine ⟨by ring, by ring, by ring⟩

/-- Witness for C8 at amount 0: the out-of-range input `(2, -3, 1/2)` is
clamped to `(1, -1, 1/2)` and scaled by `0.95`. -/
theorem stylizeDisplayPosition_spherify_boundary_witness :
    (DISPLAY_SHAPE_MODE envSpherify0 = "spherify" ∧ envSpherify0.spherifyAmount = 0) ∧
    stylizeDisplayPosition envSpherify0 { x := 2, y := -3, z := 1/2 }
      = { x := 19/20, y := -(19/20), z := 19/40 } :=
  ⟨⟨by decide, rfl⟩, by
    rw [(stylizeDisplayPosition_spherify_boundary envSpherify0 (by decide)
      { x := 2, y := -3, z := 1/2 }).1 rfl]
    simp only [Vec3.mk.injEq, DISPLAY_GLOBAL_SCALE]
    norm_num⟩

/-! ## Fetcher theorems -/

/-- C7: when the resolved location is an inline `data:` document, `fetchJson`
never issues a network request; with a comma-delimited payload it succeeds by
local decoding (percent-encoded via `decodeURIComponent`, base64 via `atob`)
followed by `JSON.parse`, and the environment-unsupported decode failure is
exactly the base64 case with no `atob` available; a comma-less data URL is a
decode error. -/
theorem fetchJson_inline_data {α : Type} (env : FetchEnv α) (filePath : String)
    (cacheBust : Option Nat)
    (hdata : jsStartsWith (buildUrl env filePath cacheBust) "data:" = true) :
    (∀ u, fetchJson env filePath cacheBust ≠ FetchResult.network u) ∧
    ((buildUrl env filePath cacheBust).toList.findIdx? (fun c => c = ',') = none →
      fetchJson env filePath cacheBust = FetchResult.err "Invalid data URL for JSON asset") ∧
    (∀ ci : Nat,
      (buildUrl env filePath cacheBust).toList.findIdx? (fun c => c = ',') = some ci →
      ((containsSeg ";base64".toList
            (((buildUrl env filePath cacheBust).toList.take ci).map Char.toLower) = false →
          ∀ d, env.decodeURIComponent
              (String.mk ((buildUrl env filePath cacheBust).toList.drop (ci + 1))) = some d →
          ∀ v, env.jsonParse d = some v →
          fetchJson env filePath cacheBust = FetchResult.ok v) ∧
        (containsSeg ";base64".toList
            (((buildUrl env filePath cacheBust).toList.take ci).map Char.toLower) = true →
          ∀ f, env.atob = some f →
          ∀ d, f (String.mk ((buildUrl env filePath cacheBust).toList.drop (ci + 1))) = some d →
          ∀ v, env.jsonParse d = some v →
          fetchJson env filePath cacheBust = FetchResult.ok v) ∧
        (containsSeg ";base64".toList
            (((buildUrl env filePath cacheBust).toList.take ci).map Char.toLower) = true →
          env.atob = none →
          fetchJson env filePath cacheBust
            = FetchResult.err "Base64 data URL decoding is not available in this environment"))) := by
  have hfj : fetchJson env filePath cacheBust
      = match parseJsonDataUrl env (buildUrl env filePath cacheBust) with
        | Except.ok v => FetchResult.ok v
        | Except.error e => FetchResult.err e := by
    unfold fetchJson
    rw [if_pos hdata]
  refine ⟨?_, ?_, ?_⟩
  · intro u
    rw [hfj]
    cases parseJsonDataUrl env (buildUrl env filePath cacheBust) <;> simp
  · intro hnone
    rw [hfj]
    unfold parseJsonDataUrl
    rw [hnone]
  · intro ci hci
    refine ⟨?_, ?_, ?_⟩
    · intro hb64 d hd v hv
      rw [hfj]
      suffices hp : parseJsonDataUrl env (buildUrl env filePath cacheBust) = Except.ok v by
        rw [hp]
      unfold parseJsonDataUrl
      rw [hci]
      simp only [hb64, hd]
      simp [hv]
    · intro hb64 f hf d hd v hv
      rw [hfj]
      suffices hp : parseJsonDataUrl env (buildUrl env filePath cacheBust) = Except.ok v by
        rw [hp]
      unfold parseJsonDataUrl
      rw [hci]
      simp only [hb64, hf, hd]
      simp [hv]
    · intro hb64 hatob
      rw [hfj]
      suffices hp : parseJsonDataUrl env (buildUrl env filePath cacheBust)
          = Except.error "Base64 data URL decoding is not available in this environment" by
        rw [hp]
      unfold parseJsonDataUrl
      rw [hci]
      simp only [hb64, hatob]
      simp

/-- Witness for C7: `envF` resolves `nodes.json` to a percent-encoded data
URL, which is decoded locally to the JSON value 42. -/
theorem fetchJson_inline_data_witness :
    (jsStartsWith (buildUrl envF "nodes.json" none) "data:" = true ∧
      (buildUrl envF "nodes.json" none).toList.findIdx? (fun c => c = ',') = some 21 ∧
      containsSeg ";base64".toList
        (((buildUrl envF "nodes.json" none).toList.take 21).map Char.toLower) = false) ∧
    fetchJson envF "nodes.json" none = FetchResult.ok 42 :=
  ⟨⟨by decide, by decide, by decide⟩,
    ((fetchJson_inline_data envF "nodes.json" none (by decide)).2.2 21 (by decide)).1
      (by decide) "42" (by decide) 42 (by decide)⟩

end Hypercube
